import Mathlib

/-!
Shallow embedding of the ai-vision-snipping-tool repository (src/formatter.py,
src/ui.py, src/app.py, src/image_processing.py, src/utils.py) and proofs about
its claimed properties.

The Tkinter text widget is modelled as the list of `insert` calls it receives:
each call contributes one `Seg` carrying the inserted text and the style tags
passed along with it.  Pure string manipulation (Python `str.strip`,
`str.splitlines`, `str.startswith`, slicing, `"\n".join`) is translated to
executable Lean functions over `List Char`.
-/

namespace VisionSnip


/-- Style tags configured on the result text widget (src/ui.py
`configure_text_tags`): "heading", "subheading", "list", "code", "bold". -/
inductive Tag where
  | heading
  | subheading
  | list
  | code
  | bold
deriving DecidableEq

/-- One `text_widget.insert` call: the inserted text and the tag tuple passed
with it (`None` becomes `[]`, a single tag `[t]`, `(base, "bold")` becomes
`[base, .bold]`). -/
structure Seg where
  text : String
  tags : List Tag
deriving DecidableEq

/-- Python `str.strip()` with no argument: drop ASCII whitespace from both
ends of the line. -/
def pyStrip (s : String) : String :=
  String.mk (((s.toList.dropWhile Char.isWhitespace).reverse.dropWhile
    Char.isWhitespace).reverse)

/-- Python `s.startswith(pre)`. -/
def pyStartsWith (s pre : String) : Bool :=
  pre.toList.isPrefixOf s.toList

/-- Python `str.splitlines()` for text using LF / CR / CRLF line breaks:
split at each break, with no empty trailing piece for a final break. -/
def splitlinesAux : List Char → List Char → List String
  | [], acc => if acc.isEmpty then [] else [String.mk acc.reverse]
  | '\r' :: '\n' :: rest, acc => String.mk acc.reverse :: splitlinesAux rest []
  | '\n' :: rest, acc => String.mk acc.reverse :: splitlinesAux rest []
  | '\r' :: rest, acc => String.mk acc.reverse :: splitlinesAux rest []
  | c :: rest, acc => splitlinesAux rest (c :: acc)

/-- Python `content.splitlines()`. -/
def pySplitlines (s : String) : List String :=
  splitlinesAux s.toList []

/-- Python `"\n".join(lines)`. -/
def pyJoinNL : List String → String
  | [] => ""
  | [s] => s
  | s :: rest => s ++ "\n" ++ pyJoinNL rest

/-- Locate the first occurrence of `**` in the character list: returns the
characters before it and the characters after it.  This is the building block
of the semantics of `re.finditer` for the source pattern
`BOLD_PATTERN = \*\*(.*?)\*\*` (src/formatter.py line 5): a match is the first
`**` paired with the next `**` after it, the non-greedy group being what
stands between them. -/
def splitStars : List Char → Option (List Char × List Char)
  | [] => none
  | [_] => none
  | c1 :: c2 :: rest =>
    if c1 = '*' ∧ c2 = '*' then some ([], rest)
    else
      match splitStars (c2 :: rest) with
      | some (p, s) => some (c1 :: p, s)
      | none => none

/-- The loop body of `insert_bold_text` (src/formatter.py lines 7-21): walk the
line from left to right; at each step the regular expression finds the
leftmost `**`, then the closing `**` after it; the text before the match keeps
the base tags, the group gets the base tags plus "bold", and the loop resumes
after the match.  When no (further) complete match exists the remaining text
is inserted with the base tags alone.  Each iteration consumes at least four
characters, so a fuel equal to the line length is never exhausted; the fuel
argument only makes the recursion structural. -/
def boldLoop (base : List Tag) : Nat → List Char → List Seg
  | _, [] => []
  | 0, cs => [⟨String.mk cs, base⟩]
  | Nat.succ n, cs =>
    match splitStars cs with
    | none => [⟨String.mk cs, base⟩]
    | some (before, afterOpen) =>
      match splitStars afterOpen with
      | none => [⟨String.mk cs, base⟩]
      | some (grp, rest) =>
        (if before.isEmpty then [] else [⟨String.mk before, base⟩]) ++
          ⟨String.mk grp, base ++ [Tag.bold]⟩ :: boldLoop base n rest

/-- The tag tuple passed for plain text: `None` for no base tag, the single
base tag otherwise. -/
def baseTags : Option Tag → List Tag
  | none => []
  | some t => [t]

/-- src/formatter.py `insert_bold_text(text_widget, line, base_tag)`, as the
list of insert calls it performs. -/
def insert_bold_text (line : String) (base : Option Tag) : List Seg :=
  boldLoop (baseTags base) line.toList.length line.toList

/-- Cross-line parser state of `format_and_insert_text`: whether the parser is
inside a fenced code block, and the lines accumulated since the opening
fence. -/
structure FmtState where
  inCode : Bool
  codeLines : List String
deriving DecidableEq

/-- One iteration of the `for line in content.splitlines()` loop of
src/formatter.py `format_and_insert_text` (lines 39-66): fence toggling,
verbatim accumulation inside a code block, then heading / subheading / list /
plain dispatch, each non-code line followed by one `"\n"` insert. -/
def fmtStep (st : FmtState) (line : String) : FmtState × List Seg :=
  let stripped := pyStrip line
  if pyStartsWith stripped "```" then
    if st.inCode then
      (⟨false, st.codeLines⟩, [⟨pyJoinNL st.codeLines ++ "\n", [Tag.code]⟩])
    else
      (⟨true, []⟩, [])
  else if st.inCode then
    (⟨true, st.codeLines ++ [line]⟩, [])
  else if pyStartsWith stripped "### " then
    (st, insert_bold_text (pyStrip (String.mk (stripped.toList.drop 4)))
      (some Tag.heading) ++ [⟨"\n", []⟩])
  else if pyStartsWith stripped "## " then
    (st, insert_bold_text (pyStrip (String.mk (stripped.toList.drop 3)))
      (some Tag.subheading) ++ [⟨"\n", []⟩])
  else if pyStartsWith stripped "- " then
    (st, insert_bold_text stripped (some Tag.list) ++ [⟨"\n", []⟩])
  else
    (st, insert_bold_text line none ++ [⟨"\n", []⟩])

/-- Run the formatter loop over a list of lines, threading the state and
concatenating the emitted segments. -/
def fmtRun : FmtState → List String → FmtState × List Seg
  | st, [] => (st, [])
  | st, l :: ls =>
    ((fmtRun (fmtStep st l).1 ls).1,
      (fmtStep st l).2 ++ (fmtRun (fmtStep st l).1 ls).2)

/-- src/formatter.py `format_and_insert_text(text_widget, content)`: the
widget is cleared first, so its final contents are exactly the emitted
segments. -/
def format_and_insert_text (content : String) : List Seg :=
  (fmtRun ⟨false, []⟩ (pySplitlines content)).2

/-- Re-insert the `**` delimiters around the bold segments and concatenate:
if inline bold spans are exactly the regex matches, this recovers the
original line. -/
def reassembleSegChars (s : Seg) : List Char :=
  if Tag.bold ∈ s.tags then '*' :: '*' :: (s.text.toList ++ ['*', '*'])
  else s.text.toList

def reassembleChars : List Seg → List Char
  | [] => []
  | s :: rest => reassembleSegChars s ++ reassembleChars rest

def reassemble (segs : List Seg) : String :=
  String.mk (reassembleChars segs)

/-- Every segment except possibly the last contains no `**` occurrence: the
matching is leftmost-first, so unmatched text before and between matches is
free of `**`, and only a final unterminated tail may still hold one. -/
def initNoStars : List Seg → Bool
  | [] => true
  | [_] => true
  | s :: s2 :: rest => (splitStars s.text.toList).isNone && initNoStars (s2 :: rest)

/-- src/ui.py `SelectionWindow.on_button_release` (lines 69-85) as a pure
function of the press point, the release point, the platform flag and the
overlay's screen origin: the normalized rectangle in absolute coordinates, or
`none` when either dimension is within the 5-pixel drag threshold (`bbox` is
then left unassigned). -/
def on_button_release (isWin : Bool) (screen_x screen_y : Int)
    (start_x start_y end_x end_y : Int) : Option (Int × Int × Int × Int) :=
  let actual_left := if isWin then min start_x end_x + screen_x
    else min start_x end_x
  let actual_top := if isWin then min start_y end_y + screen_y
    else min start_y end_y
  let actual_right := if isWin then max start_x end_x + screen_x
    else max start_x end_x
  let actual_bottom := if isWin then max start_y end_y + screen_y
    else max start_y end_y
  if actual_right - actual_left > 5 ∧ actual_bottom - actual_top > 5 then
    some (actual_left, actual_top, actual_right, actual_bottom)
  else
    none

/-- The mutable fields of src/ui.py `SelectionWindow`: the drag anchor, the
marker rectangle currently drawn on the canvas (none once deleted), the
selection result `bbox`, and whether teardown of the overlay window has been
initiated (`top.after(10, top.destroy)`, or the forced fallback destroy). -/
structure Overlay where
  start_x : Option Int
  start_y : Option Int
  marker : Option (Int × Int × Int × Int)
  bbox : Option (Int × Int × Int × Int)
  destroyScheduled : Bool
deriving DecidableEq

/-- The overlay right after `__init__` (src/ui.py lines 38-41). -/
def initOverlay : Overlay :=
  ⟨none, none, none, none, false⟩

/-- src/ui.py `SelectionWindow.on_button_press`: records the anchor and draws
a zero-size marker rectangle. -/
def on_button_press (o : Overlay) (x y : Int) : Overlay :=
  { o with start_x := some x, start_y := some y, marker := some (x, y, x, y) }

/-- src/ui.py `SelectionWindow.cleanup` (lines 91-101): the marker rectangle
is deleted from the canvas (a no-op when none is drawn) and destruction of
the overlay window is scheduled; the except-branch fallback also destroys the
window, so teardown is initiated on every path. -/
def cleanup (o : Overlay) : Overlay :=
  { o with marker := none, destroyScheduled := true }

/-- src/ui.py `SelectionWindow.on_escape` (lines 87-89): clear `bbox`, then
clean up. -/
def on_escape (o : Overlay) : Overlay :=
  cleanup { o with bbox := none }

/-- src/image_processing.py `process_image_with_openai` (lines 17-58).  The
try-block — the `openai.ChatCompletion.create` call plus the extraction
`response.choices[0].message.content` — is modelled by its outcome: `.ok raw`
when the call returns and the response text is extracted, `.error e` when any
exception (network, auth, malformed response, quota) is raised inside the
try-block, `e` being the exception's message.  On success the text is
stripped and returned; every exception is caught and turned into the marked
error string. -/
def process_image_with_openai (call : Except String String) : String :=
  match call with
  | .ok raw => pyStrip raw
  | .error e => "Error processing image: " ++ e

/-- The pixel grab of the selected rectangle.  PIL's `ImageGrab` is external
to the repository; a captured image is its raster: dimensions plus the
row-major list of RGB pixels. -/
structure RawImage where
  width : Nat
  height : Nat
  pixels : List (Nat × Nat × Nat)
deriving DecidableEq

/-- The state of src/ui.py `SnippingToolApp` that a capture cycle touches:
the re-entrancy flag, whether the main window is withdrawn, the image
preview, the debug snapshot file, and the result text widget contents. -/
structure AppState where
  is_snipping : Bool
  withdrawn : Bool
  displayedImage : Option RawImage
  debugSaved : Option RawImage
  resultText : List Seg
deriving DecidableEq

/-- The application state right after `__init__` (src/ui.py line 110
`self.is_snipping = False`; src/app.py line 339 `is_snipping = False`). -/
def initialAppState : AppState :=
  ⟨false, false, none, none, []⟩

/-- The ways one capture cycle can unfold once the overlay returns:
the user cancelled or the drag was too small (`selection.bbox` is `None`);
`ImageGrab.grab` raised (caught at src/ui.py lines 183-187); or the grab
succeeded and the vision client ran, its try-block finishing with the given
outcome (the client itself never raises, per `process_image_with_openai`). -/
inductive CycleOutcome where
  | cancelled
  | captureFail (msg : String)
  | captured (img : RawImage) (callResult : Except String String)

/-- src/ui.py `SnippingToolApp.capture_area` (lines 158-189), equally
src/app.py `capture_area` (lines 341-372): an early return when a cycle is
already in progress, otherwise hide the window, run the overlay, restore the
window, handle the three cycle outcomes, and reset the flag in the `finally`
block on every exit path. -/
def capture_area (st : AppState) (outcome : CycleOutcome) : AppState :=
  if st.is_snipping then st
  else
    let st1 : AppState := { st with is_snipping := true, withdrawn := true }
    let st2 : AppState := { st1 with withdrawn := false }
    let st3 : AppState :=
      match outcome with
      | .cancelled => st2
      | .captureFail msg =>
        { st2 with resultText := [⟨"Error capturing image: " ++ msg, []⟩] }
      | .captured img callResult =>
        { st2 with
            debugSaved := some img,
            displayedImage := some img,
            resultText :=
              format_and_insert_text (process_image_with_openai callResult) }
    { st3 with is_snipping := false }

/-- The screen environment: the values the Windows `GetSystemMetrics` call
would report for each metric index, together with the actual size of the
primary display (what a correct "primary display rectangle" would use). -/
structure ScreenEnv where
  metrics : Nat → Int
  primaryWidth : Int
  primaryHeight : Int

/-- src/utils.py `get_virtual_screen_rect` (lines 20-33), equally src/app.py
(lines 37-47): on Windows the four virtual-screen metrics
(SM_XVIRTUALSCREEN 76, SM_YVIRTUALSCREEN 77, SM_CXVIRTUALSCREEN 78,
SM_CYVIRTUALSCREEN 79); otherwise the hardcoded fallback `(0, 0, 800, 600)`. -/
def get_virtual_screen_rect (isWin : Bool) (env : ScreenEnv) :
    Int × Int × Int × Int :=
  if isWin then (env.metrics 76, env.metrics 77, env.metrics 78, env.metrics 79)
  else (0, 0, 800, 600)

/-- What the claim asserts the non-Windows branch returns: the primary
display's full rectangle, origin (0,0). -/
def primaryDisplayRect (env : ScreenEnv) : Int × Int × Int × Int :=
  (0, 0, env.primaryWidth, env.primaryHeight)

/-- The standard base64 alphabet used by Python's `base64.b64encode`. -/
def b64Alphabet : List Char :=
  ['A', 'B', 'C', 'D', 'E', 'F', 'G', 'H', 'I', 'J', 'K', 'L', 'M',
   'N', 'O', 'P', 'Q', 'R', 'S', 'T', 'U', 'V', 'W', 'X', 'Y', 'Z',
   'a', 'b', 'c', 'd', 'e', 'f', 'g', 'h', 'i', 'j', 'k', 'l', 'm',
   'n', 'o', 'p', 'q', 'r', 's', 't', 'u', 'v', 'w', 'x', 'y', 'z',
   '0', '1', '2', '3', '4', '5', '6', '7', '8', '9', '+', '/']

/-- The base64 digit character for a 6-bit value. -/
def b64Char (d : Nat) : Char :=
  b64Alphabet.getD d 'A'

/-- The 6-bit value of a base64 digit character, `none` for padding or any
character outside the alphabet. -/
def b64Val (c : Char) : Option Nat :=
  let i := b64Alphabet.indexOf c
  if i < 64 then some i else none

/-- RFC 4648 base64 of a byte list, three bytes to four digits, padded with
`=` — the semantics of Python's `base64.b64encode` used at
src/image_processing.py line 15. -/
def b64chunks : List Nat → List Char
  | [] => []
  | [b0] =>
    let n := b0 * 65536
    [b64Char (n / 262144), b64Char (n / 4096 % 64), '=', '=']
  | [b0, b1] =>
    let n := b0 * 65536 + b1 * 256
    [b64Char (n / 262144), b64Char (n / 4096 % 64), b64Char (n / 64 % 64), '=']
  | b0 :: b1 :: b2 :: rest =>
    let n := b0 * 65536 + b1 * 256 + b2
    b64Char (n / 262144) :: b64Char (n / 4096 % 64) :: b64Char (n / 64 % 64) ::
      b64Char (n % 64) :: b64chunks rest

/-- Base64 decoding: four digits back to three bytes, honouring the padded
terminal chunk. -/
def b64decodeChunks : List Char → Option (List Nat)
  | [] => some []
  | c0 :: c1 :: c2 :: c3 :: rest =>
    match b64Val c0, b64Val c1, b64Val c2, b64Val c3 with
    | some d0, some d1, some d2, some d3 =>
      (b64decodeChunks rest).map
        (fun tail => (d0 * 4 + d1 / 16) :: (d1 % 16 * 16 + d2 / 4) ::
          (d2 % 4 * 64 + d3) :: tail)
    | some d0, some d1, some d2, none =>
      if c3 = '=' ∧ rest.isEmpty then
        some [d0 * 4 + d1 / 16, d1 % 16 * 16 + d2 / 4]
      else none
    | some d0, some d1, none, none =>
      if c2 = '=' ∧ c3 = '=' ∧ rest.isEmpty then some [d0 * 4 + d1 / 16]
      else none
    | _, _, _, _ => none
  | _ => none

/-- Python `base64.b64encode(...).decode('utf-8')`. -/
def b64encode (bs : List Nat) : String :=
  String.mk (b64chunks bs)

/-- Inverse of `b64encode` (Python `base64.b64decode`). -/
def b64decode (s : String) : Option (List Nat) :=
  b64decodeChunks s.toList

/-- The eight-byte PNG file signature. -/
def pngSignature : List Nat :=
  [137, 80, 78, 71, 13, 10, 26, 10]

/-- Four-byte big-endian encoding of a 32-bit value. -/
def natTo4 (n : Nat) : List Nat :=
  [n / 16777216 % 256, n / 65536 % 256, n / 256 % 256, n % 256]

/-- Modelled from the spec: `image.save(buffered, format="PNG")` at
src/image_processing.py line 14 is PIL's PNG writer, which is external to the
repository; per §4.3 it "serializes losslessly in a single fixed raster
format", so it is modelled as a lossless container — the PNG signature, the
big-endian 32-bit dimensions, then the raw RGB bytes. -/
def pngSerialize (img : RawImage) : List Nat :=
  pngSignature ++ natTo4 img.width ++ natTo4 img.height ++
    (img.pixels.map (fun p => [p.1, p.2.1, p.2.2])).flatten

/-- Read a four-byte big-endian value. -/
def take4 : List Nat → Option (Nat × List Nat)
  | b0 :: b1 :: b2 :: b3 :: rest =>
    some (b0 * 16777216 + b1 * 65536 + b2 * 256 + b3, rest)
  | _ => none

/-- Regroup `3 * n` raw bytes into `n` RGB pixels, rejecting leftovers. -/
def readPixels : Nat → List Nat → Option (List (Nat × Nat × Nat))
  | 0, [] => some []
  | 0, _ :: _ => none
  | n + 1, r :: g :: b :: rest =>
    (readPixels n rest).map (fun ps => (r, g, b) :: ps)
  | _ + 1, _ => none

/-- Inverse of `pngSerialize`: check the signature, read the dimensions, then
regroup the pixel bytes. -/
def pngDecode : List Nat → Option RawImage
  | 137 :: 80 :: 78 :: 71 :: 13 :: 10 :: 26 :: 10 :: rest =>
    match take4 rest with
    | none => none
    | some (w, rest1) =>
      match take4 rest1 with
      | none => none
      | some (h, rest2) =>
        (readPixels (w * h) rest2).map (fun ps => ⟨w, h, ps⟩)
  | _ => none

/-- src/image_processing.py `encode_image_to_base64` (lines 9-15), equally
src/app.py (lines 70-74): serialize the image as PNG into an in-memory
buffer, base64-encode the buffer, decode the bytes to text. -/
def encode_image_to_base64 (image : RawImage) : String :=
  b64encode (pngSerialize image)

/-- A well-formed in-memory image: 32-bit dimensions, a pixel for every
raster cell, every channel a byte. -/
def WellFormedImage (img : RawImage) : Prop :=
  img.width < 4294967296 ∧ img.height < 4294967296 ∧
  img.pixels.length = img.width * img.height ∧
  ∀ p ∈ img.pixels, p.1 < 256 ∧ p.2.1 < 256 ∧ p.2.2 < 256

instance (img : RawImage) : Decidable (WellFormedImage img) := by
  unfold WellFormedImage
  infer_instance

theorem splitStars_eq : ∀ (cs p s : List Char),
    splitStars cs = some (p, s) → cs = p ++ '*' :: '*' :: s
  | [], p, s, h => by simp [splitStars] at h
  | [c], p, s, h => by simp [splitStars] at h
  | c1 :: c2 :: rest, p, s, h => by
    rw [splitStars] at h
    split_ifs at h with hc
    · simp only [Option.some.injEq, Prod.mk.injEq] at h
      obtain ⟨h1, h2⟩ := h
      subst h1; subst h2
      simp [hc.1, hc.2]
    · cases he : splitStars (c2 :: rest) with
      | none => rw [he] at h; simp at h
      | some pr =>
        obtain ⟨p', s'⟩ := pr
        rw [he] at h
        simp only [Option.some.injEq, Prod.mk.injEq] at h
        obtain ⟨h1, h2⟩ := h
        subst h1; subst h2
        have ih := splitStars_eq (c2 :: rest) p' s' he
        simp [ih]

theorem splitStars_none_prefix : ∀ (cs p s : List Char),
    splitStars cs = some (p, s) → splitStars p = none
  | [], p, s, h => by simp [splitStars] at h
  | [c], p, s, h => by simp [splitStars] at h
  | c1 :: c2 :: rest, p, s, h => by
    rw [splitStars] at h
    split_ifs at h with hc
    · simp only [Option.some.injEq, Prod.mk.injEq] at h
      obtain ⟨h1, _⟩ := h
      subst h1
      rfl
    · cases he : splitStars (c2 :: rest) with
      | none => rw [he] at h; simp at h
      | some pr =>
        obtain ⟨p', s'⟩ := pr
        rw [he] at h
        simp only [Option.some.injEq, Prod.mk.injEq] at h
        obtain ⟨h1, _⟩ := h
        subst h1
        have ih := splitStars_none_prefix (c2 :: rest) p' s' he
        have heq := splitStars_eq (c2 :: rest) p' s' he
        cases hp : p' with
        | nil => rfl
        | cons d ds =>
          subst hp
          have hd : c2 = d := by
            have := congrArg (fun l => l.head?) heq
            simpa using this
          rw [splitStars]
          split_ifs with hc2
          · exact absurd ⟨hc2.1, hd ▸ hc2.2⟩ hc
          · rw [ih]

theorem fmtRun_append (xs : List String) : ∀ (st : FmtState) (ys : List String),
    fmtRun st (xs ++ ys) =
      ((fmtRun (fmtRun st xs).1 ys).1,
        (fmtRun st xs).2 ++ (fmtRun (fmtRun st xs).1 ys).2) := by
  induction xs with
  | nil => intro st ys; simp [fmtRun]
  | cons l ls ih =>
    intro st ys
    simp only [List.cons_append, fmtRun, List.append_eq]
    rw [ih]
    simp [List.append_assoc]

theorem fmtRun_inCode_silent (ls : List String)
    (h : ∀ l ∈ ls, pyStartsWith (pyStrip l) "```" = false) :
    ∀ (cs : List String), (fmtRun ⟨true, cs⟩ ls).2 = [] := by
  induction ls with
  | nil => intro cs; rfl
  | cons l ls ih =>
    intro cs
    have hl : pyStartsWith (pyStrip l) "```" = false := h l (by simp)
    have hstep : fmtStep ⟨true, cs⟩ l = (⟨true, cs ++ [l]⟩, []) := by
      simp [fmtStep, hl]
    simp only [fmtRun, hstep]
    exact ih (fun x hx => h x (by simp [hx])) (cs ++ [l])

theorem fmtStep_fence_open (st : FmtState) (fence : String)
    (hf : pyStartsWith (pyStrip fence) "```" = true) (hc : st.inCode = false) :
    fmtStep st fence = (⟨true, []⟩, []) := by
  simp [fmtStep, hf, hc]

/-- C4: if the split lines of the input are some prefix, then a fence line
opening a code block (the state after the prefix is not inside a code block),
then only lines none of which is a fence line, the formatter's output is
exactly the output for the prefix: everything after the unterminated opening
fence is accumulated and never emitted. -/
theorem fence_unterminated (content : String) (pre post : List String)
    (fence : String)
    (hsplit : pySplitlines content = pre ++ fence :: post)
    (hf : pyStartsWith (pyStrip fence) "```" = true)
    (hpre : (fmtRun ⟨false, []⟩ pre).1.inCode = false)
    (hpost : ∀ l ∈ post, pyStartsWith (pyStrip l) "```" = false) :
    format_and_insert_text content = (fmtRun ⟨false, []⟩ pre).2 := by
  unfold format_and_insert_text
  rw [hsplit, fmtRun_append pre ⟨false, []⟩ (fence :: post)]
  have hstep : fmtStep (fmtRun ⟨false, []⟩ pre).1 fence = (⟨true, []⟩, []) :=
    fmtStep_fence_open _ fence hf hpre
  simp only [fmtRun, hstep]
  rw [fmtRun_inCode_silent post hpost []]
  simp

/-- Witness for C4: the input "```" + newline + "abc" with no closing fence
produces no output at all; "abc" is swallowed. -/
theorem fence_unterminated_witness :
    format_and_insert_text "```\nabc" = [] := by
  have h := fence_unterminated "```\nabc" [] ["abc"] "```" (by decide)
    (by decide) (by decide) (by decide)
  simpa using h

theorem toList_mk (l : List Char) : (String.mk l).toList = l := rfl

theorem mk_toList (s : String) : String.mk s.toList = s := rfl

theorem reassembleChars_append (l1 l2 : List Seg) :
    reassembleChars (l1 ++ l2) = reassembleChars l1 ++ reassembleChars l2 := by
  induction l1 with
  | nil => rfl
  | cons s rest ih => simp [reassembleChars, ih]

theorem initNoStars_cons (s : Seg) (l : List Seg)
    (hs : splitStars s.text.toList = none) (hl : initNoStars l = true) :
    initNoStars (s :: l) = true := by
  cases l with
  | nil => rfl
  | cons s2 rest =>
    have hs' : splitStars s.text.data = none := hs
    simp [initNoStars, hs', hl]

theorem boldLoop_spec : ∀ (fuel : Nat) (cs : List Char) (base : List Tag),
    cs.length ≤ fuel → Tag.bold ∉ base →
    reassembleChars (boldLoop base fuel cs) = cs ∧
    (∀ s ∈ boldLoop base fuel cs,
      s.tags = base ∨ s.tags = base ++ [Tag.bold]) ∧
    (∀ s ∈ boldLoop base fuel cs,
      Tag.bold ∈ s.tags → splitStars s.text.toList = none) ∧
    initNoStars (boldLoop base fuel cs) = true := by
  intro fuel
  induction fuel with
  | zero =>
    intro cs base hlen hb
    cases cs with
    | nil =>
      refine ⟨rfl, ?_, ?_, rfl⟩ <;> intro s hs <;> simp [boldLoop] at hs
    | cons c cs' => simp at hlen
  | succ n ih =>
    intro cs base hlen hb
    cases cs with
    | nil =>
      refine ⟨rfl, ?_, ?_, rfl⟩ <;> intro s hs <;> simp [boldLoop] at hs
    | cons c cs' =>
      cases h1 : splitStars (c :: cs') with
      | none =>
        refine ⟨?_, ?_, ?_, ?_⟩
        · simp [boldLoop, h1, reassembleChars, reassembleSegChars, hb]
        · intro s hs
          simp [boldLoop, h1] at hs
          subst hs
          exact Or.inl rfl
        · intro s hs hbold
          simp [boldLoop, h1] at hs
          subst hs
          exact absurd hbold hb
        · simp [boldLoop, h1, initNoStars]
      | some pr1 =>
        obtain ⟨before, afterOpen⟩ := pr1
        cases h2 : splitStars afterOpen with
        | none =>
          refine ⟨?_, ?_, ?_, ?_⟩
          · simp [boldLoop, h1, h2, reassembleChars, reassembleSegChars, hb]
          · intro s hs
            simp [boldLoop, h1, h2] at hs
            subst hs
            exact Or.inl rfl
          · intro s hs hbold
            simp [boldLoop, h1, h2] at hs
            subst hs
            exact absurd hbold hb
          · simp [boldLoop, h1, h2, initNoStars]
        | some pr2 =>
          obtain ⟨grp, rest⟩ := pr2
          have e1 := splitStars_eq (c :: cs') before afterOpen h1
          have e2 := splitStars_eq afterOpen grp rest h2
          have hbefore := splitStars_none_prefix (c :: cs') before afterOpen h1
          have hgrp := splitStars_none_prefix afterOpen grp rest h2
          have hlen1 : (c :: cs').length = before.length + 2 + afterOpen.length := by
            rw [e1]; simp [List.length_append]; omega
          have hlen2 : afterOpen.length = grp.length + 2 + rest.length := by
            rw [e2]; simp [List.length_append]; omega
          have hrest : rest.length ≤ n := by
            have : (c :: cs').length ≤ n + 1 := hlen
            omega
          obtain ⟨iha, ihb, ihc, ihd⟩ := ih rest base hrest hb
          have hunf : boldLoop base (n + 1) (c :: cs') =
              (if before.isEmpty then [] else [⟨String.mk before, base⟩]) ++
                ⟨String.mk grp, base ++ [Tag.bold]⟩ :: boldLoop base n rest := by
            simp [boldLoop, h1, h2]
          refine ⟨?_, ?_, ?_, ?_⟩
          · rw [hunf, reassembleChars_append]
            have hbold_mem : Tag.bold ∈ base ++ [Tag.bold] := by simp
            cases hbe : before.isEmpty with
            | true =>
              have : before = [] := by
                cases before with
                | nil => rfl
                | cons x xs => simp at hbe
              subst this
              simp [reassembleChars, reassembleSegChars, hbold_mem, iha,
                toList_mk, e1, e2, List.append_assoc]
            | false =>
              simp only [hbe, Bool.false_eq_true, if_neg, reassembleChars,
                reassembleSegChars]
              simp [hb, hbold_mem, iha, toList_mk, e1, e2, List.append_assoc]
          · intro s hs
            rw [hunf] at hs
            rcases List.mem_append.mp hs with hs1 | hs2
            · have : s = ⟨String.mk before, base⟩ := by
                cases hbe : before.isEmpty with
                | true => simp [hbe] at hs1
                | false => simp [hbe] at hs1; exact hs1
              subst this
              exact Or.inl rfl
            · rcases List.mem_cons.mp hs2 with hs3 | hs4
              · subst hs3; exact Or.inr rfl
              · exact ihb s hs4
          · intro s hs hbold
            rw [hunf] at hs
            rcases List.mem_append.mp hs with hs1 | hs2
            · have : s = ⟨String.mk before, base⟩ := by
                cases hbe : before.isEmpty with
                | true => simp [hbe] at hs1
                | false => simp [hbe] at hs1; exact hs1
              subst this
              exact absurd hbold hb
            · rcases List.mem_cons.mp hs2 with hs3 | hs4
              · subst hs3; simpa [toList_mk] using hgrp
              · exact ihc s hs4 hbold
          · rw [hunf]
            have htail : initNoStars (⟨String.mk grp, base ++ [Tag.bold]⟩ ::
                boldLoop base n rest) = true :=
              initNoStars_cons _ _ (by simpa [toList_mk] using hgrp) ihd
            cases hbe : before.isEmpty with
            | true => simpa [hbe] using htail
            | false =>
              simp only [hbe, Bool.false_eq_true, if_neg, List.nil_append,
                List.cons_append, List.singleton_append]
              exact initNoStars_cons _ _ (by simpa [toList_mk] using hbefore)
                htail

/-- C5: for every line and base tag, inline bold spans are exactly the
pair-wise, leftmost-first, non-overlapping `**` pairs: re-inserting `**`
around the bold runs reconstructs the line exactly (so text outside matches,
including unmatched delimiters, is emitted literally), every run carries
either the block style alone or the block style plus bold, no bold run
contains a `**`, and only the final (unterminated) run may contain one. -/
theorem insert_bold_matches (line : String) (base : Option Tag)
    (hb : Tag.bold ∉ baseTags base) :
    reassemble (insert_bold_text line base) = line ∧
    (∀ s ∈ insert_bold_text line base,
      s.tags = baseTags base ∨ s.tags = baseTags base ++ [Tag.bold]) ∧
    (∀ s ∈ insert_bold_text line base,
      Tag.bold ∈ s.tags → splitStars s.text.toList = none) ∧
    initNoStars (insert_bold_text line base) = true := by
  obtain ⟨ha, hbm, hc, hd⟩ :=
    boldLoop_spec line.toList.length line.toList (baseTags base) le_rfl hb
  exact ⟨by rw [reassemble, insert_bold_text, ha, mk_toList], hbm, hc, hd⟩

/-- Witness for C5 at the line "a**b**c**": one matched pair, one trailing
unmatched delimiter kept literally. -/
theorem insert_bold_matches_witness :
    Tag.bold ∉ baseTags none ∧
      reassemble (insert_bold_text "a**b**c**" none) = "a**b**c**" :=
  ⟨by decide, (insert_bold_matches "a**b**c**" none (by decide)).1⟩

/-- C3: on the spec's six-line scenario input, the formatter emits exactly a
heading run "Title", the plain line "plain " / bold "bold" / " text", the two
list lines (the second with "two" additionally bold), one code block
"code line" with trailing newline, and one line break after every non-code
line. -/
theorem format_scenario :
    format_and_insert_text
        "### Title\nplain **bold** text\n- item one\n- item **two**\n```\ncode line\n```" =
      [⟨"Title", [Tag.heading]⟩, ⟨"\n", []⟩,
       ⟨"plain ", []⟩, ⟨"bold", [Tag.bold]⟩, ⟨" text", []⟩, ⟨"\n", []⟩,
       ⟨"- item one", [Tag.list]⟩, ⟨"\n", []⟩,
       ⟨"- item ", [Tag.list]⟩, ⟨"two", [Tag.list, Tag.bold]⟩, ⟨"\n", []⟩,
       ⟨"code line\n", [Tag.code]⟩] := by
  decide

theorem on_button_release_isWin_true (sx sy x0 y0 x1 y1 : Int) :
    on_button_release true sx sy x0 y0 x1 y1 =
      if 5 < |x1 - x0| ∧ 5 < |y1 - y0| then
        some (min x0 x1 + sx, min y0 y1 + sy, max x0 x1 + sx, max y0 y1 + sy)
      else none := by
  have hx : max x0 x1 + sx - (min x0 x1 + sx) = |x1 - x0| := by
    have h := max_sub_min_eq_abs x0 x1
    omega
  have hy : max y0 y1 + sy - (min y0 y1 + sy) = |y1 - y0| := by
    have h := max_sub_min_eq_abs y0 y1
    omega
  simp only [on_button_release, if_true, gt_iff_lt]
  rw [hx, hy]

theorem on_button_release_isWin_false (x0 y0 x1 y1 : Int) (sx sy : Int) :
    on_button_release false sx sy x0 y0 x1 y1 =
      if 5 < |x1 - x0| ∧ 5 < |y1 - y0| then
        some (min x0 x1, min y0 y1, max x0 x1, max y0 y1)
      else none := by
  have hx : max x0 x1 - min x0 x1 = |x1 - x0| := max_sub_min_eq_abs x0 x1
  have hy : max y0 y1 - min y0 y1 = |y1 - y0| := max_sub_min_eq_abs y0 y1
  simp only [on_button_release, Bool.false_eq_true, if_false, gt_iff_lt]
  rw [hx, hy]

/-- C6: a drag whose horizontal or vertical extent is at most 5 pixels yields
no selection, on both platform branches and in either drag direction, and a
selection is produced exactly when both normalized dimensions exceed
5 pixels. -/
theorem on_button_release_threshold (isWin : Bool) (sx sy x0 y0 x1 y1 : Int) :
    ((|x1 - x0| ≤ 5 ∨ |y1 - y0| ≤ 5) →
      on_button_release isWin sx sy x0 y0 x1 y1 = none) ∧
    ((on_button_release isWin sx sy x0 y0 x1 y1).isSome = true ↔
      5 < |x1 - x0| ∧ 5 < |y1 - y0|) := by
  cases isWin with
  | true =>
    rw [on_button_release_isWin_true]
    constructor
    · intro h
      rw [if_neg]
      rintro ⟨hx, hy⟩
      rcases h with h | h <;> omega
    · split_ifs with h
      · simpa using h
      · simpa using h
  | false =>
    rw [on_button_release_isWin_false]
    constructor
    · intro h
      rw [if_neg]
      rintro ⟨hx, hy⟩
      rcases h with h | h <;> omega
    · split_ifs with h
      · simpa using h
      · simpa using h

/-- Witness for C6: a 3-by-10 drag is rejected (the horizontal extent is
within the threshold). -/
theorem on_button_release_threshold_witness :
    (|(3 : Int) - 0| ≤ 5 ∨ |(10 : Int) - 0| ≤ 5) ∧
      on_button_release false 0 0 0 0 3 10 = none :=
  ⟨Or.inl (by decide),
    (on_button_release_threshold false 0 0 0 0 3 10).1 (Or.inl (by decide))⟩

/-- C7: releasing at q after pressing at p yields the same result as
releasing at p after pressing at q; any produced rectangle is normalized
(left ≤ right, top ≤ bottom); and the spec's concrete instance: dragging from
(50,50) to (10,10) yields the same rectangle (10,10,50,50) as dragging from
(10,10) to (50,50). -/
theorem on_button_release_symm (isWin : Bool) (sx sy ax ay bx bY : Int) :
    on_button_release isWin sx sy ax ay bx bY =
      on_button_release isWin sx sy bx bY ax ay ∧
    (∀ l t r b, on_button_release isWin sx sy ax ay bx bY = some (l, t, r, b) →
      l ≤ r ∧ t ≤ b) ∧
    on_button_release false 0 0 50 50 10 10 = some (10, 10, 50, 50) ∧
    on_button_release false 0 0 10 10 50 50 = some (10, 10, 50, 50) := by
  refine ⟨?_, ?_, by decide, by decide⟩
  · simp only [on_button_release]
    rw [min_comm bx ax, min_comm bY ay, max_comm bx ax, max_comm bY ay]
  · intro l t r b h
    cases isWin with
    | true =>
      rw [on_button_release_isWin_true] at h
      split_ifs at h
      · simp only [Option.some.injEq, Prod.mk.injEq] at h
        obtain ⟨h1, h2, h3, h4⟩ := h
        subst h1; subst h2; subst h3; subst h4
        exact ⟨add_le_add_right min_le_max sx, add_le_add_right min_le_max sy⟩
    | false =>
      rw [on_button_release_isWin_false] at h
      split_ifs at h
      · simp only [Option.some.injEq, Prod.mk.injEq] at h
        obtain ⟨h1, h2, h3, h4⟩ := h
        subst h1; subst h2; subst h3; subst h4
        exact ⟨min_le_max, min_le_max⟩

/-- Witness for C7: the normalization conjunct applied at the concrete drag
from (50,50) to (10,10). -/
theorem on_button_release_symm_witness :
    (10 : Int) ≤ 50 ∧ (10 : Int) ≤ 50 :=
  (on_button_release_symm false 0 0 50 50 10 10).2.1 10 10 50 50 (by decide)

/-- C8: from any overlay state — before a drag, mid-drag, even with a
selection already computed — an escape event leaves no selection result, no
marker rectangle on the canvas, and initiates teardown. -/
theorem on_escape_cancels (o : Overlay) :
    (on_escape o).bbox = none ∧ (on_escape o).marker = none ∧
      (on_escape o).destroyScheduled = true :=
  ⟨rfl, rfl, rfl⟩

/-- C2: the vision client never propagates an exception — it is a total
function into strings: on success the caller receives the stripped response
text, and on any failure the error message prefixed with the fixed marker
"Error processing image: ". -/
theorem process_image_never_raises (call : Except String String) :
    (∀ t, call = .ok t → process_image_with_openai call = pyStrip t) ∧
    (∀ e, call = .error e →
      process_image_with_openai call = "Error processing image: " ++ e ∧
      ∃ tail, process_image_with_openai call =
        "Error processing image: " ++ tail) := by
  refine ⟨?_, ?_⟩
  · intro t ht
    subst ht
    rfl
  · intro e he
    subst he
    exact ⟨rfl, e, rfl⟩

/-- Witness for C2: a failing call surfaces as the marked error string. -/
theorem process_image_never_raises_witness :
    process_image_with_openai (Except.error "boom") =
      "Error processing image: boom" :=
  ((process_image_never_raises (Except.error "boom")).2 "boom" rfl).1

/-- C1: invoking the capture trigger while a cycle is in progress leaves the
state untouched; a cycle that does run ends with the flag false on every exit
path (cancelled, capture failure, client failure or success); and the flag is
false at startup. -/
theorem capture_area_reentrancy (st : AppState) (outcome : CycleOutcome) :
    (st.is_snipping = true → capture_area st outcome = st) ∧
    (st.is_snipping = false →
      (capture_area st outcome).is_snipping = false) ∧
    initialAppState.is_snipping = false := by
  refine ⟨?_, ?_, rfl⟩
  · intro h
    simp [capture_area, h]
  · intro h
    cases outcome <;> simp [capture_area, h]

/-- Witness for C1: a second trigger during a cycle is a no-op, and a
completed cycle (here: a failing client call) leaves the flag false. -/
theorem capture_area_reentrancy_witness :
    capture_area ⟨true, false, none, none, []⟩ CycleOutcome.cancelled =
        ⟨true, false, none, none, []⟩ ∧
      (capture_area initialAppState
        (CycleOutcome.captured ⟨1, 1, [(0, 0, 0)]⟩
          (Except.error "net"))).is_snipping = false :=
  ⟨(capture_area_reentrancy ⟨true, false, none, none, []⟩
      CycleOutcome.cancelled).1 rfl,
    (capture_area_reentrancy initialAppState
      (CycleOutcome.captured ⟨1, 1, [(0, 0, 0)]⟩
        (Except.error "net"))).2.1 rfl⟩

/-- Counterexample for C9: on a non-Windows host whose primary display is
1024 x 768, the function does not return the primary display's rectangle —
it returns the constant (0, 0, 800, 600). -/
theorem get_virtual_screen_rect_counterexample :
    get_virtual_screen_rect false ⟨fun _ => 0, 1024, 768⟩ ≠
      primaryDisplayRect ⟨fun _ => 0, 1024, 768⟩ := by
  decide

/-- C9 as amended: the non-Windows branch returns the fixed fallback
rectangle (0, 0, 800, 600) with origin (0,0) regardless of the actual
display metrics; the Windows branch returns the virtual-screen bounding box
read from system metrics 76-79 (origin possibly negative); the function is
total, with no error condition. -/
theorem get_virtual_screen_rect_amended (env : ScreenEnv) :
    get_virtual_screen_rect false env = (0, 0, 800, 600) ∧
    get_virtual_screen_rect true env =
      (env.metrics 76, env.metrics 77, env.metrics 78, env.metrics 79) :=
  ⟨rfl, rfl⟩

theorem b64Val_b64Char : ∀ d, d < 64 → b64Val (b64Char d) = some d := by
  decide

theorem b64Val_pad : b64Val '=' = none := by
  decide

theorem b64_roundtrip : ∀ (bs : List Nat), (∀ b ∈ bs, b < 256) →
    b64decodeChunks (b64chunks bs) = some bs
  | [], _ => rfl
  | [b0], h => by
    have hb0 : b0 < 256 := h b0 (by simp)
    have h0 := b64Val_b64Char (b0 * 65536 / 262144) (by omega)
    have h1 := b64Val_b64Char (b0 * 65536 / 4096 % 64) (by omega)
    simp only [b64chunks, b64decodeChunks, h0, h1, b64Val_pad]
    simp
    omega
  | [b0, b1], h => by
    have hb0 : b0 < 256 := h b0 (by simp)
    have hb1 : b1 < 256 := h b1 (by simp)
    have h0 := b64Val_b64Char ((b0 * 65536 + b1 * 256) / 262144) (by omega)
    have h1 := b64Val_b64Char ((b0 * 65536 + b1 * 256) / 4096 % 64) (by omega)
    have h2 := b64Val_b64Char ((b0 * 65536 + b1 * 256) / 64 % 64) (by omega)
    simp only [b64chunks, b64decodeChunks, h0, h1, h2, b64Val_pad]
    simp
    omega
  | b0 :: b1 :: b2 :: b3 :: rest, h => by
    have hb0 : b0 < 256 := h b0 (by simp)
    have hb1 : b1 < 256 := h b1 (by simp)
    have hb2 : b2 < 256 := h b2 (by simp)
    have ih := b64_roundtrip (b3 :: rest) (fun b hb => h b (by simp at hb ⊢; tauto))
    have h0 := b64Val_b64Char ((b0 * 65536 + b1 * 256 + b2) / 262144) (by omega)
    have h1 := b64Val_b64Char ((b0 * 65536 + b1 * 256 + b2) / 4096 % 64) (by omega)
    have h2 := b64Val_b64Char ((b0 * 65536 + b1 * 256 + b2) / 64 % 64) (by omega)
    have h3 := b64Val_b64Char ((b0 * 65536 + b1 * 256 + b2) % 64) (by omega)
    simp only [b64chunks, b64decodeChunks, h0, h1, h2, h3, ih]
    simp
    omega
  | [b0, b1, b2], h => by
    have hb0 : b0 < 256 := h b0 (by simp)
    have hb1 : b1 < 256 := h b1 (by simp)
    have hb2 : b2 < 256 := h b2 (by simp)
    have ih : b64decodeChunks (b64chunks ([] : List Nat)) = some [] := rfl
    have h0 := b64Val_b64Char ((b0 * 65536 + b1 * 256 + b2) / 262144) (by omega)
    have h1 := b64Val_b64Char ((b0 * 65536 + b1 * 256 + b2) / 4096 % 64) (by omega)
    have h2 := b64Val_b64Char ((b0 * 65536 + b1 * 256 + b2) / 64 % 64) (by omega)
    have h3 := b64Val_b64Char ((b0 * 65536 + b1 * 256 + b2) % 64) (by omega)
    simp only [b64chunks, b64decodeChunks, h0, h1, h2, h3]
    simp
    omega

theorem pngSerialize_bytes_lt (img : RawImage) (h : WellFormedImage img) :
    ∀ b ∈ pngSerialize img, b < 256 := by
  obtain ⟨hw, hh, hl, hp⟩ := h
  intro b hb
  simp only [pngSerialize, pngSignature, natTo4, List.mem_append,
    List.mem_flatten, List.mem_map] at hb
  rcases hb with ((hsig | hdim) | hdim2) | ⟨l, ⟨p, hpmem, hleq⟩, hbl⟩
  · simp at hsig
    rcases hsig with h1 | h1 | h1 | h1 | h1 | h1 | h1 | h1 <;> omega
  · simp at hdim
    rcases hdim with h1 | h1 | h1 | h1 <;> omega
  · simp at hdim2
    rcases hdim2 with h1 | h1 | h1 | h1 <;> omega
  · subst hleq
    have := hp p hpmem
    simp at hbl
    rcases hbl with h1 | h1 | h1 <;> omega

theorem readPixels_flatten : ∀ (ps : List (Nat × Nat × Nat)),
    readPixels ps.length ((ps.map (fun p => [p.1, p.2.1, p.2.2])).flatten) =
      some ps
  | [] => rfl
  | p :: ps => by
    obtain ⟨r, g, b⟩ := p
    simp [readPixels, readPixels_flatten ps]

theorem pngDecode_serialize (img : RawImage) (h : WellFormedImage img) :
    pngDecode (pngSerialize img) = some img := by
  obtain ⟨w, hgt, pixels⟩ := img
  obtain ⟨hw0, hh0, hl0, _⟩ := h
  have hw : w < 4294967296 := hw0
  have hh : hgt < 4294967296 := hh0
  have hl : pixels.length = w * hgt := hl0
  have hser : pngSerialize ⟨w, hgt, pixels⟩ =
      137 :: 80 :: 78 :: 71 :: 13 :: 10 :: 26 :: 10 ::
      (w / 16777216 % 256) :: (w / 65536 % 256) :: (w / 256 % 256) ::
      (w % 256) ::
      (hgt / 16777216 % 256) :: (hgt / 65536 % 256) :: (hgt / 256 % 256) ::
      (hgt % 256) ::
      (pixels.map (fun p => [p.1, p.2.1, p.2.2])).flatten := by
    simp [pngSerialize, pngSignature, natTo4]
  rw [hser]
  simp only [pngDecode, take4]
  have hw4 : w / 16777216 % 256 * 16777216 + w / 65536 % 256 * 65536 +
      w / 256 % 256 * 256 + w % 256 = w := by omega
  have hh4 : hgt / 16777216 % 256 * 16777216 + hgt / 65536 % 256 * 65536 +
      hgt / 256 % 256 * 256 + hgt % 256 = hgt := by omega
  rw [hw4, hh4]
  have hl' : w * hgt = pixels.length := hl.symm
  rw [hl', readPixels_flatten]
  rfl

/-- C10: for every well-formed in-memory image, `encode_image_to_base64`
followed by base64 decoding and PNG decoding recovers the image exactly
(pixel-identical round trip). -/
theorem encode_image_roundtrip (image : RawImage) (h : WellFormedImage image) :
    (b64decode (encode_image_to_base64 image)).bind pngDecode = some image := by
  unfold encode_image_to_base64 b64decode b64encode
  rw [toList_mk, b64_roundtrip (pngSerialize image)
    (pngSerialize_bytes_lt image h)]
  simp only [Option.some_bind]
  exact pngDecode_serialize image h

/-- Witness for C10 at a concrete 2 x 1 image. -/
theorem encode_image_roundtrip_witness :
    WellFormedImage ⟨2, 1, [(255, 0, 10), (1, 2, 3)]⟩ ∧
      (b64decode (encode_image_to_base64 ⟨2, 1, [(255, 0, 10), (1, 2, 3)]⟩)).bind
          pngDecode = some ⟨2, 1, [(255, 0, 10), (1, 2, 3)]⟩ :=
  ⟨by decide, encode_image_roundtrip ⟨2, 1, [(255, 0, 10), (1, 2, 3)]⟩
    (by decide)⟩

end VisionSnip
